import Mathlib

set_option maxRecDepth 10000

/-!
Shallow embedding of `src/app.py` (the "Automailer" result-email tool).

The program is a single Streamlit script.  Its pure core, embedded here:

* rows of the uploaded CSV (`ResultRow`, one per data line, nine columns);
* the schema check (`missingColumns`, app.py lines 114-119);
* the email-syntax check (`emailValid`, the regex at app.py line 122);
* grouping by student via pandas `df.groupby("student_name")`
  (`grouped`; pandas iterates group keys in ascending sorted order and keeps
  the original row order inside each group, app.py line 132);
* per-group destination resolution `student_results["parent_email"].iloc[0]`
  and the multiple-email warning (`resolveEmail`, `groupWarnings`,
  app.py lines 141-143);
* the HTML renderer built by string concatenation inside `send_email`
  (`htmlContent`, app.py lines 25-68);
* `send_email` itself, whose SMTP session is abstracted as a `transport`
  oracle returning `Except String Unit` — `Except.error e` stands for any
  exception raised inside the `try` block (app.py lines 16-82);
* the "Send Emails" handler: the send loop, the success/error aggregation
  and the progress updates (`runPipeline`, app.py lines 84-160).

Machine floats of the two numeric columns are kept as their display strings:
no claim depends on arithmetic over them, only on values being carried
through unchanged.
-/

/-- One data row of the uploaded CSV.  `grade_points` and `credits` are
parsed as floats by `pd.read_csv`; they are carried here as the rendered
numeric text, which is all the renderer and sender use. -/
structure ResultRow where
  student_name : String
  parent_email : String
  course_code : String
  course_name : String
  month_year : String
  grade : String
  grade_points : String
  credits : String
  result : String
deriving DecidableEq

/-- Outcome dictionary returned by `send_email` (app.py lines 80-82):
`{"status": ..., "to_email": ...}` plus an `"error"` entry in the failure
branch. -/
structure SendOutcome where
  status : String
  to_email : String
  error : Option String
deriving DecidableEq

/-- The required column set of the CSV, in the order written at
app.py lines 114-115. -/
def requiredColumns : List String :=
  ["student_name", "parent_email", "Course Code", "Course Name",
   "Month Year", "Grade", "Grade Points", "Credits", "Result"]

/-- `required_columns - set(df.columns)` (app.py line 116), listed in the
order of `requiredColumns` (Python's set has no specified order). -/
def missingColumns (headers : List String) : List String :=
  requiredColumns.filter (fun c => !(headers.contains c))

/-- Character class `[a-zA-Z0-9._%+-]` of the local part of the email
regex at app.py line 122. -/
def isLocalChar (c : Char) : Bool :=
  c.isAlphanum || c == '.' || c == '_' || c == '%' || c == '+' || c == '-'

/-- Character class `[a-zA-Z0-9.-]` of the domain part of the email regex. -/
def isDomainChar (c : Char) : Bool :=
  c.isAlphanum || c == '.' || c == '-'

/-- Character class `[a-zA-Z]` of the final label of the email regex. -/
def isTldChar (c : Char) : Bool := c.isAlpha

/-- Matcher for the anchored regex
`^[a-zA-Z0-9._%+-]+@[a-zA-Z0-9.-]+\.[a-zA-Z]{2,}$` of app.py line 122.
The split at the first `@` is forced (no character class contains `@`);
the split at the last `.` realizes the backtracking of the final
`\.[a-zA-Z]{2,}` (the label after the chosen dot may not contain a dot).
`emailMatch_iff_splits` below proves this matcher equal to the existential
reading of the regex. -/
def emailMatch (cs : List Char) : Bool :=
  match cs.dropWhile (fun c => c != '@') with
  | [] => false
  | _ :: rest =>
    match rest.reverse.dropWhile (fun c => c != '.') with
    | [] => false
    | _ :: domRev =>
      !(cs.takeWhile (fun c => c != '@')).isEmpty &&
      (cs.takeWhile (fun c => c != '@')).all isLocalChar &&
      !domRev.isEmpty &&
      domRev.all isDomainChar &&
      decide (2 ≤ (rest.reverse.takeWhile (fun c => c != '.')).length) &&
      (rest.reverse.takeWhile (fun c => c != '.')).all isTldChar

/-- `df['parent_email'].str.match(r'^...$')` for one value. -/
def emailValid (s : String) : Bool := emailMatch s.data

/-- The rows kept by `df[~df['parent_email'].str.match(...)]`
(app.py line 122): rows whose email fails the regex. -/
def invalidRows (rows : List ResultRow) : List ResultRow :=
  rows.filter (fun r => !(emailValid r.parent_email))

/-- Worker of `firstSeen`: values of the list not in `seen`, first
occurrences only, in input order. -/
def firstSeenAux (seen : List String) : List String → List String
  | [] => []
  | x :: xs =>
    if seen.contains x then firstSeenAux seen xs
    else x :: firstSeenAux (x :: seen) xs

/-- First-seen deduplication: the distinct values of a list in the order
of their first occurrence.  This is the spec's notion of
"first-seen student order" (spec section 4.3) and the distinct-value
count `nunique()`; the code itself sorts the group keys, see
`groupKeys`. -/
def firstSeen (l : List String) : List String := firstSeenAux [] l

/-- Lexicographic comparison of char lists by code point, the order Python
uses to compare `str` values (and hence the order pandas sorts group keys
in). -/
def charsLe : List Char → List Char → Bool
  | [], _ => true
  | _ :: _, [] => false
  | a :: as, b :: bs => if a < b then true else if b < a then false else charsLe as bs

/-- Python `str` less-or-equal. -/
def strLe (a b : String) : Bool := charsLe a.data b.data

/-- Insert a string into a list that is kept in ascending order. -/
def orderedInsert (s : String) : List String → List String
  | [] => [s]
  | t :: ts => if strLe s t then s :: t :: ts else t :: orderedInsert s ts

/-- Sort a list of strings ascending (insertion sort).  Stands for the
sorting pandas `groupby` applies to its keys (`sort=True` default). -/
def sortStrings : List String → List String
  | [] => []
  | s :: ss => orderedInsert s (sortStrings ss)

/-- The group keys of `df.groupby("student_name")` (app.py line 132):
the distinct student names, in ascending sorted order — pandas sorts the
keys; it does not keep first-seen order. -/
def groupKeys (rows : List ResultRow) : List String :=
  sortStrings (firstSeen (rows.map (fun r => r.student_name)))

/-- `df.groupby("student_name")` as an association list: each key paired
with the rows carrying it, in their original input order. -/
def grouped (rows : List ResultRow) : List (String × List ResultRow) :=
  (groupKeys rows).map (fun k => (k, rows.filter (fun r => r.student_name == k)))

/-- `student_results["parent_email"].iloc[0]` (app.py line 141): the email
of the first row of the group.  Groups produced by `grouped` are never
empty; the `[]` case is a harmless default. -/
def resolveEmail : List ResultRow → String
  | [] => ""
  | r :: _ => r.parent_email

/-- The warnings st.warning emits inside the send loop (app.py lines
142-143): one per group whose rows carry more than one distinct
parent_email (`nunique() > 1`). -/
def groupWarnings (groups : List (String × List ResultRow)) : List String :=
  groups.filterMap (fun g =>
    if 1 < (firstSeen (g.2.map (fun r => r.parent_email))).length then
      some ("Multiple parent emails found for " ++ g.1 ++ ". Using: " ++ resolveEmail g.2)
    else none)

/-- Static head of the HTML document (app.py lines 25-37): everything of
the first f-string before the interpolated student name.  CSS braces are
written with character escapes. -/
def htmlStyleBlock : String :=
  "\n        <html>\n        <head>\n        <style>\n            table \x7b border-collapse: collapse; width: 100%; margin: 20px 0; \x7d\n            th, td \x7b border: 1px solid #ddd; padding: 8px; text-align: left; \x7d\n            th \x7b background-color: #f2f2f2; \x7d\n            tr:nth-child(even) \x7b background-color: #f9f9f9; \x7d\n        </style>\n        </head>\n        <body>\n            <p>Dear Parent,</p>\n            <p>Your child, <strong>"

/-- Rest of the first f-string after the student name (app.py lines
37-48), holding the single header row of the table. -/
def htmlAfterName : String :=
  "</strong>\x27s results for 2 Year - 3 Semester are out:</p>\n            <table>\n                <tr>\n                    <th>Course Code</th>\n                    <th>Course Name</th>\n                    <th>Month Year</th>\n                    <th>Grade</th>\n                    <th>Grade Points</th>\n                    <th>Credits</th>\n                    <th>Result</th>\n                </tr>\n        "

/-- The first f-string of `html_content` (app.py lines 25-48). -/
def htmlHead (student_name : String) : String :=
  htmlStyleBlock ++ student_name ++ htmlAfterName

/-- Opening text of one table row (start of the f-string of app.py
lines 52-54): newline, indented `<tr>`, newline, indented first `<td>`. -/
def tdRowOpen : String := "\n                <tr>\n                    <td>"

/-- Text between two cell values: closing tag, newline, next `<td>`. -/
def tdCellSep : String := "</td>\n                    <td>"

/-- Text after the last cell value: closing tag, newline, `</tr>`. -/
def tdRowClose : String := "</td>\n                </tr>"

/-- The per-row f-string appended inside the loop (app.py lines 51-61):
one `<tr>` with the seven cell values inserted as-is. -/
def rowFragment (r : ResultRow) : String :=
  tdRowOpen ++ r.course_code ++
  tdCellSep ++ r.course_name ++
  tdCellSep ++ r.month_year ++
  tdCellSep ++ r.grade ++
  tdCellSep ++ r.grade_points ++
  tdCellSep ++ r.credits ++
  tdCellSep ++ r.result ++
  tdRowClose

/-- The closing string appended after the loop (app.py lines 63-68). -/
def htmlTail : String :=
  "\n            </table>\n            <p>Thank you,<br>School Administration</p>\n        </body>\n        </html>\n        "

/-- `html_content` as built by app.py lines 25-68: head, then one fragment
appended per row of the group in order, then the tail. -/
def htmlContent (student_name : String) (rows : List ResultRow) : String :=
  (rows.foldl (fun acc r => acc ++ rowFragment r) (htmlHead student_name)) ++ htmlTail

/-- The plain-text alternative body (app.py line 71). -/
def textContent (student_name : String) : String :=
  "Dear Parent,\n\nYour child, " ++ student_name ++ "\x27s results for 2 Year - 3 Semester are available. Please view this email in HTML format for better formatting.\n\nThank you,\nSchool Administration"

/-- The subject line (app.py line 22). -/
def subjectLine (student_name : String) : String :=
  "Result Update for " ++ student_name ++ " - 2 Year 3 Semester"

/-- `send_email` (app.py lines 16-82).  The entire `try` body — message
assembly and the scoped SMTP session (connect, STARTTLS, login, sendmail)
— is abstracted as the `transport` oracle, applied to the recipient and
the rendered HTML body; `Except.error e` stands for any exception the body
raises, with `e` its `str(...)` description.  The function never
propagates a failure: it returns the success dictionary or the error
dictionary of lines 80-82. -/
def send_email (transport : String → String → Except String Unit)
    (to_email : String) (student_name : String) (results_df : List ResultRow) :
    SendOutcome :=
  match transport to_email (htmlContent student_name results_df) with
  | .ok _ => ⟨"success", to_email, none⟩
  | .error e => ⟨"error", to_email, some e⟩

/-- The send loop of app.py lines 140-146: for each group in `grouped`
order, resolve the destination address and call `send_email`, collecting
the outcomes in order. -/
def sendPhase (transport : String → String → Except String Unit)
    (groups : List (String × List ResultRow)) : List SendOutcome :=
  groups.map (fun g => send_email transport (resolveEmail g.2) g.1 g.2)

/-- `sum(1 for r in results if r["status"] == "success")` (app.py line 150). -/
def success_count (results : List SendOutcome) : Nat :=
  (results.filter (fun r => r.status == "success")).length

/-- `[r for r in results if r["status"] == "error"]` (app.py line 151). -/
def error_results (results : List SendOutcome) : List SendOutcome :=
  results.filter (fun r => r.status == "error")

/-- Division as evaluated by `(idx + 1) / total_students` at app.py line
147: `none` stands for the ZeroDivisionError Python would raise on a zero
denominator. -/
def safeDiv (a b : ℚ) : Option ℚ := if b = 0 then none else some (a / b)

/-- Possible ends of one run of the script body (app.py lines 91-160). -/
inductive RunResult where
  /-- The outer `except` handler fired (app.py lines 159-160); the string
  is the description of the exception it caught. -/
  | processingError (msg : String)
  /-- `st.error` + `st.stop()` of the missing-columns check (lines 117-119). -/
  | schemaError (missing : List String)
  /-- `st.stop()` after listing invalid emails without confirmation
  (lines 123-129): the flagged `(student_name, parent_email)` pairs. -/
  | stoppedInvalidEmails (flagged : List (String × String))
  /-- The final report (lines 150-157): success count and error outcomes. -/
  | report (nSuccess : Nat) (errs : List SendOutcome)
deriving DecidableEq

/-- What one run of the script body produced and did. -/
structure RunLog where
  /-- How the run ended. -/
  result : RunResult
  /-- Ambiguity warnings emitted inside the send loop, in loop order. -/
  warnings : List String
  /-- Recipients for which `send_email` was invoked, in loop order. -/
  attempts : List String
  /-- The `results` list accumulated by the loop (app.py line 146). -/
  outcomes : List SendOutcome
  /-- The values passed to `progress_bar.progress`, one per iteration. -/
  progress : List (Option ℚ)
deriving DecidableEq

/-- One run of the script body (app.py lines 91-160) after a successful
CSV parse, with the "Send Emails" button pressed.

Order of events mirrors the source: the preview line
`df['student_name'].nunique()` (line 111) runs before the missing-columns
check, so a table without a `student_name` column raises `KeyError` there
and lands in the outer `except` handler — the schema check is never
reached for that column.  Then the missing-columns check (lines 114-119),
the email validation gate (lines 122-129, `continueAnyway` is the
"Continue anyway" button), and finally the send loop with its progress
updates and the aggregate report (lines 131-157). -/
def runPipeline (transport : String → String → Except String Unit)
    (headers : List String) (rows : List ResultRow) (continueAnyway : Bool) :
    RunLog :=
  if !(headers.contains "student_name") then
    ⟨.processingError "student_name", [], [], [], []⟩
  else if !(missingColumns headers).isEmpty then
    ⟨.schemaError (missingColumns headers), [], [], [], []⟩
  else if !(invalidRows rows).isEmpty && !continueAnyway then
    ⟨.stoppedInvalidEmails ((invalidRows rows).map (fun r => (r.student_name, r.parent_email))),
     [], [], [], []⟩
  else
    ⟨.report (success_count (sendPhase transport (grouped rows)))
             (error_results (sendPhase transport (grouped rows))),
     groupWarnings (grouped rows),
     (grouped rows).map (fun g => resolveEmail g.2),
     sendPhase transport (grouped rows),
     (List.range (grouped rows).length).map
       (fun i => safeDiv ((i : ℚ) + 1) ((grouped rows).length : ℚ))⟩

/-- `takeWhile` up to the next tag opener: the cell content that follows
an opening tag in the generated HTML. -/
def takeCell (l : List Char) : List Char := l.takeWhile (fun c => c != '<')

/-- All the maximal tag-free cell contents following occurrences of `tag`:
scan the character list and, at each occurrence of `tag`, record the
content up to the next `<`.  Applied with `<td>`/`<th>`/`<tr>` to the
generated document this recovers the data cells, the header cells and the
table rows. -/
def cells (tag : List Char) : List Char → List (List Char)
  | [] => []
  | c :: cs =>
    if tag.isPrefixOf (c :: cs) then
      takeCell ((c :: cs).drop tag.length) :: cells tag cs
    else
      cells tag cs

/-- The `<td>` opener. -/
def tdTag : List Char := ['<', 't', 'd', '>']

/-- The `<th>` opener. -/
def thTag : List Char := ['<', 't', 'h', '>']

/-- The `<tr>` opener. -/
def trTag : List Char := ['<', 't', 'r', '>']

/-- `true` when `tag` and `s` disagree at some position before either
ends; then `tag` can be a prefix of no extension of `s`. -/
def disagrees : List Char → List Char → Bool
  | [], _ => false
  | _, [] => false
  | t :: ts, c :: cs => if t = c then disagrees ts cs else true

/-- `a` is clean for `tag`: no suffix of `a` agrees with `tag` up to the
end of either, so no occurrence of `tag` can start inside `a`, even one
straddling into appended text. -/
def cleanFor (tag a : List Char) : Bool :=
  a.tails.all (fun s => s.isEmpty || disagrees tag s)

/-- No `<` occurs in the string: the well-formedness condition on field
values under which the generated HTML parses back uniquely. -/
def noLt (s : String) : Bool := s.data.all (fun c => c != '<')

/-- All seven rendered fields of a row are `<`-free. -/
def rowClean (r : ResultRow) : Bool :=
  noLt r.course_code && noLt r.course_name && noLt r.month_year &&
  noLt r.grade && noLt r.grade_points && noLt r.credits && noLt r.result

/-- The seven cell values of one row, in the column order of the table. -/
def rowCells (r : ResultRow) : List (List Char) :=
  [r.course_code.data, r.course_name.data, r.month_year.data, r.grade.data,
   r.grade_points.data, r.credits.data, r.result.data]

/-- The characters contributed by the loop of app.py lines 51-61. -/
def fragsData (rows : List ResultRow) : List Char :=
  rows.flatMap (fun r => (rowFragment r).data)

/-- Header cell text `Course Code`. -/
def hdrCourseCode : List Char := ("Course Code" : String).data

/-- Header cell text `Course Name`. -/
def hdrCourseName : List Char := ("Course Name" : String).data

/-- Header cell text `Month Year`. -/
def hdrMonthYear : List Char := ("Month Year" : String).data

/-- Header cell text `Grade`. -/
def hdrGrade : List Char := ("Grade" : String).data

/-- Header cell text `Grade Points`. -/
def hdrGradePoints : List Char := ("Grade Points" : String).data

/-- Header cell text `Credits`. -/
def hdrCredits : List Char := ("Credits" : String).data

/-- Header cell text `Result`. -/
def hdrResult : List Char := ("Result" : String).data

/-- The seven header cells of the rendered table, in column order. -/
def headerCells : List (List Char) :=
  [hdrCourseCode, hdrCourseName, hdrMonthYear, hdrGrade, hdrGradePoints,
   hdrCredits, hdrResult]

/-- `htmlAfterName` up to and excluding the first `<th>`. -/
def chHeadPre : List Char :=
  ("</strong>\x27s results for 2 Year - 3 Semester are out:</p>\n            <table>\n                <tr>\n                    " : String).data

/-- Text between a header cell and the next `<th>` (sans leading `<`). -/
def chThSep : List Char := ("/th>\n                    " : String).data

/-- Text after the last header cell (sans leading `<`). -/
def chThLast : List Char := ("/th>\n                </tr>\n        " : String).data

/-- `htmlAfterName` up to and excluding its `<tr>`. -/
def chHeadPreTr : List Char :=
  ("</strong>\x27s results for 2 Year - 3 Semester are out:</p>\n            <table>\n                " : String).data

/-- `htmlAfterName` after its `<tr>`. -/
def chHeadRowTr : List Char :=
  ("\n                    <th>Course Code</th>\n                    <th>Course Name</th>\n                    <th>Month Year</th>\n                    <th>Grade</th>\n                    <th>Grade Points</th>\n                    <th>Credits</th>\n                    <th>Result</th>\n                </tr>\n        " : String).data

/-- `tdRowOpen` up to and excluding its `<td>`. -/
def chTdPre : List Char := ("\n                <tr>\n                    " : String).data

/-- `tdCellSep` between its leading `<` and its `<td>`. -/
def chMSep : List Char := ("/td>\n                    " : String).data

/-- `tdRowClose` after its leading `<`. -/
def chESep : List Char := ("/td>\n                </tr>" : String).data

/-- `tdRowOpen` up to and excluding its `<tr>`. -/
def chN1 : List Char := ("\n                " : String).data

/-- `tdRowOpen` after its `<tr>`. -/
def chN2td : List Char := ("\n                    <td>" : String).data

/-- Sample row constructor for the concrete instances: fixed course data,
chosen student and email. -/
def mkRow (n e : String) : ResultRow :=
  ⟨n, e, "CS101", "Programming", "May 2024", "A", "9.0", "4.0", "Pass"⟩

/-- Two rows whose students appear in anti-alphabetical input order. -/
def rowBeta : ResultRow := mkRow "beta" "b@x.com"

/-- Second row of the order counterexample. -/
def rowAlpha : ResultRow := mkRow "alpha" "a@x.com"

/-- Rows of three students, in input order s1, s2, s3. -/
def threeStudentRows : List ResultRow :=
  [mkRow "s1" "p1@x.com", mkRow "s2" "p2@x.com", mkRow "s3" "p3@x.com"]

/-- A transport that rejects exactly the second student's recipient. -/
def failSecond : String → String → Except String Unit :=
  fun dst _ => if dst == "p2@x.com" then .error "connection refused" else .ok ()

/-- A transport that always succeeds. -/
def okTransport : String → String → Except String Unit := fun _ _ => .ok ()

/-- One student, three rows, emails a@x.com, a@x.com, b@x.com in that row
order (the ambiguity example of spec section 8). -/
def ambiguousRows : List ResultRow :=
  [mkRow "amber" "a@x.com", mkRow "amber" "a@x.com", mkRow "amber" "b@x.com"]

/-- A row whose parent_email fails the regex. -/
def badEmailRow : ResultRow := mkRow "carol" "not-an-email"

/-- Headers missing both `student_name` and `Grade Points`. -/
def headersNoStudentName : List String :=
  ["parent_email", "Course Code", "Course Name", "Month Year", "Grade", "Credits", "Result"]

/-- Headers missing exactly `Grade Points`. -/
def headersNoGradePoints : List String :=
  ["student_name", "parent_email", "Course Code", "Course Name", "Month Year", "Grade", "Credits", "Result"]

/-! ## Basic facts about `send_email` and the orchestrator -/

/-- `send_email` returns exactly one of the two dictionaries of
app.py lines 80-82, determined by the transport outcome. -/
theorem send_email_cases (transport : String → String → Except String Unit)
    (dst student_name : String) (rows : List ResultRow) :
    (transport dst (htmlContent student_name rows) = .ok () ∧
      send_email transport dst student_name rows = ⟨"success", dst, none⟩) ∨
    (∃ e, transport dst (htmlContent student_name rows) = .error e ∧
      send_email transport dst student_name rows = ⟨"error", dst, some e⟩) := by
  cases h : transport dst (htmlContent student_name rows) with
  | ok u =>
    cases u
    exact Or.inl ⟨rfl, by simp [send_email, h]⟩
  | error e => exact Or.inr ⟨e, rfl, by simp [send_email, h]⟩

/-- Every outcome a send loop produces has status `success` or `error`. -/
theorem sendPhase_status (transport : String → String → Except String Unit)
    (groups : List (String × List ResultRow)) :
    ∀ r ∈ sendPhase transport groups, r.status = "success" ∨ r.status = "error" := by
  intro r hr
  rcases List.mem_map.mp hr with ⟨g, _, hg⟩
  rcases send_email_cases transport (resolveEmail g.2) g.1 g.2 with ⟨_, h⟩ | ⟨e, _, h⟩
  · rw [← hg, h]; exact Or.inl rfl
  · rw [← hg, h]; exact Or.inr rfl

/-- Outcome statuses are binary, so successes and errors partition the
results list. -/
theorem status_partition (results : List SendOutcome)
    (h : ∀ r ∈ results, r.status = "success" ∨ r.status = "error") :
    success_count results + (error_results results).length = results.length := by
  induction results with
  | nil => rfl
  | cons r rest ih =>
    have hr := h r (List.mem_cons_self r rest)
    have hrest := ih (fun x hx => h x (List.mem_cons_of_mem _ hx))
    rcases hr with h1 | h1 <;>
      simp [success_count, error_results, List.filter_cons, h1] at * <;> omega

/-! ## C2: the Mail Sender never raises past its boundary -/

/-- C2: for every recipient, student name, result rows, and every failure
the transport raises inside `send_email`, the call does not propagate the
exception: whenever the transport fails with description `e`, the call
returns exactly the `status = "error"` dictionary of app.py line 82
carrying that description; whenever the transport succeeds, it returns
exactly the `status = "success"` dictionary of line 80; and the returned
status is always one of the two.  (The embedding is total, so "does not
raise past its boundary" is the fact that every transport behavior,
failures included, is mapped to a returned dictionary.) -/
theorem send_email_boundary (transport : String → String → Except String Unit)
    (dst student_name : String) (rows : List ResultRow) :
    (∀ e, transport dst (htmlContent student_name rows) = .error e →
      send_email transport dst student_name rows = ⟨"error", dst, some e⟩) ∧
    (transport dst (htmlContent student_name rows) = .ok () →
      send_email transport dst student_name rows = ⟨"success", dst, none⟩) ∧
    ((send_email transport dst student_name rows).status = "success" ∨
      (send_email transport dst student_name rows).status = "error") := by
  rcases send_email_cases transport dst student_name rows with ⟨hok, h⟩ | ⟨e, he, h⟩
  · refine ⟨?_, fun _ => h, Or.inl (by rw [h])⟩
    intro e2 he2
    rw [hok] at he2
    cases he2
  · refine ⟨?_, ?_, Or.inr (by rw [h])⟩
    · intro e2 he2
      rw [he] at he2
      injection he2 with h3
      rw [← h3]
      exact h
    · intro hok2
      rw [he] at hok2
      cases hok2

/-- Witness for `send_email_boundary`: a concretely failing transport
yields exactly the error dictionary with its description, and a
succeeding one exactly the success dictionary. -/
theorem send_email_boundary_witness :
    send_email failSecond "p2@x.com" "s2" [mkRow "s2" "p2@x.com"] =
      ⟨"error", "p2@x.com", some "connection refused"⟩ ∧
    send_email okTransport "p1@x.com" "s1" [mkRow "s1" "p1@x.com"] =
      ⟨"success", "p1@x.com", none⟩ :=
  ⟨(send_email_boundary failSecond "p2@x.com" "s2" [mkRow "s2" "p2@x.com"]).1
      "connection refused" rfl,
   (send_email_boundary okTransport "p1@x.com" "s1" [mkRow "s1" "p1@x.com"]).2.1 rfl⟩

/-! ## C10: outcomes carry the attempted recipient -/

/-- C10: every `send_email` outcome carries the `to_email` it was passed,
in both branches; hence over any run the outcome list projects, recipient
by recipient and in order, to the list of attempted recipients, and every
reported error names an actually attempted recipient. -/
theorem outcome_carries_recipient (transport : String → String → Except String Unit) :
    (∀ (dst student_name : String) (rows : List ResultRow),
      (send_email transport dst student_name rows).to_email = dst) ∧
    (∀ (headers : List String) (rows : List ResultRow) (c : Bool),
      ((runPipeline transport headers rows c).outcomes).map (fun r => r.to_email) =
        (runPipeline transport headers rows c).attempts) ∧
    (∀ (headers : List String) (rows : List ResultRow) (c : Bool),
      ∀ r ∈ error_results ((runPipeline transport headers rows c).outcomes),
        r.to_email ∈ (runPipeline transport headers rows c).attempts) := by
  have hto : ∀ (dst student_name : String) (rows : List ResultRow),
      (send_email transport dst student_name rows).to_email = dst := by
    intro dst n rows
    rcases send_email_cases transport dst n rows with ⟨_, h⟩ | ⟨e, _, h⟩ <;> rw [h]
  have hmap : ∀ (headers : List String) (rows : List ResultRow) (c : Bool),
      ((runPipeline transport headers rows c).outcomes).map (fun r => r.to_email) =
        (runPipeline transport headers rows c).attempts := by
    intro headers rows c
    unfold runPipeline
    split
    · rfl
    split
    · rfl
    split
    · rfl
    · simp only [sendPhase, List.map_map]
      exact List.map_congr_left (fun g _ => hto (resolveEmail g.2) g.1 g.2)
  refine ⟨hto, hmap, ?_⟩
  intro headers rows c r hr
  have hmem : r ∈ (runPipeline transport headers rows c).outcomes :=
    List.mem_of_mem_filter hr
  have := List.mem_map_of_mem (fun r => r.to_email) hmem
  rw [hmap headers rows c] at this
  exact this

/-! ## C9: an input with zero groups -/

/-- C9: for an empty row list the send phase runs with zero groups — the
loop body never executes, no send is attempted, no progress division is
evaluated (the progress list, whose entries would be `safeDiv` by the
group total, is empty), and the report is success count 0 with an empty
error list. -/
theorem empty_group_send_phase (transport : String → String → Except String Unit)
    (continueAnyway : Bool) :
    grouped ([] : List ResultRow) = [] ∧
    sendPhase transport (grouped []) = [] ∧
    runPipeline transport requiredColumns [] continueAnyway =
      ⟨.report 0 [], [], [], [], []⟩ := by
  refine ⟨rfl, rfl, ?_⟩
  show (if !true && !continueAnyway then _ else _) = _
  simp [runPipeline]
  rfl

/-! ## C3: the orchestrator attempts every group and aggregates faithfully -/

/-- C3: the send loop attempts one send per group with no early stop
(outcome list as long as the group list), successes and errors partition
the outcomes, the report is made of `success_count` and `error_results`
of the outcome list; and on the concrete three-group run where only the
second recipient fails, the success count is 2 and the error list names
exactly the second recipient with its error description while all three
groups were attempted. -/
theorem orchestrator_processes_all_groups (transport : String → String → Except String Unit) :
    (∀ groups, (sendPhase transport groups).length = groups.length) ∧
    (∀ groups, success_count (sendPhase transport groups) +
      (error_results (sendPhase transport groups)).length = groups.length) ∧
    (∀ rows : List ResultRow,
      (runPipeline transport requiredColumns rows true).result =
        .report (success_count ((runPipeline transport requiredColumns rows true).outcomes))
                (error_results ((runPipeline transport requiredColumns rows true).outcomes))) ∧
    (grouped threeStudentRows).length = 3 ∧
    (sendPhase failSecond (grouped threeStudentRows)).length = 3 ∧
    success_count (sendPhase failSecond (grouped threeStudentRows)) = 2 ∧
    error_results (sendPhase failSecond (grouped threeStudentRows)) =
      [⟨"error", "p2@x.com", some "connection refused"⟩] := by
  refine ⟨?_, ?_, ?_, by decide, by decide, by decide, by decide⟩
  · intro groups; exact List.length_map groups _
  · intro groups
    exact (status_partition (sendPhase transport groups)
      (sendPhase_status transport groups)).trans (List.length_map groups _)
  · intro rows
    unfold runPipeline
    simp only [show (!(requiredColumns.contains "student_name")) = false from by decide,
      show ((missingColumns requiredColumns).isEmpty) = true from by decide,
      Bool.not_true, Bool.and_false, Bool.false_eq_true, if_false]

/-! ## Facts about first-seen deduplication and key sorting -/

/-- Membership in the deduplication worker. -/
theorem firstSeenAux_mem (a : String) :
    ∀ (l seen : List String),
      a ∈ firstSeenAux seen l ↔ a ∈ l ∧ seen.contains a = false := by
  intro l
  induction l with
  | nil => intro seen; simp [firstSeenAux]
  | cons x xs ih =>
    intro seen
    by_cases hx : seen.contains x = true
    · have e : firstSeenAux seen (x :: xs)
          = if seen.contains x then firstSeenAux seen xs else x :: firstSeenAux (x :: seen) xs := rfl
      rw [e, if_pos hx]
      rw [ih seen]
      constructor
      · rintro ⟨hmem, hc⟩; exact ⟨List.mem_cons_of_mem _ hmem, hc⟩
      · rintro ⟨hmem, hc⟩
        rcases List.mem_cons.mp hmem with rfl | hmem
        · rw [hx] at hc; cases hc
        · exact ⟨hmem, hc⟩
    · have hx' : seen.contains x = false := by
        cases h : seen.contains x
        · rfl
        · exact absurd h hx
      have e : firstSeenAux seen (x :: xs)
          = if seen.contains x then firstSeenAux seen xs else x :: firstSeenAux (x :: seen) xs := rfl
      rw [e, if_neg hx]
      by_cases hax : a = x
      · subst hax
        exact ⟨fun _ => ⟨List.mem_cons_self a xs, hx'⟩, fun _ => List.mem_cons_self a _⟩
      · constructor
        · intro hmem
          rcases List.mem_cons.mp hmem with rfl | hmem
          · exact absurd rfl hax
          · rcases (ih (x :: seen)).mp hmem with ⟨h1, h2⟩
            refine ⟨List.mem_cons_of_mem _ h1, ?_⟩
            simp only [List.contains_cons, Bool.or_eq_false_iff] at h2
            exact h2.2
        · rintro ⟨hmem, hc⟩
          rcases List.mem_cons.mp hmem with rfl | hmem
          · exact absurd rfl hax
          · refine List.mem_cons_of_mem _ ((ih (x :: seen)).mpr ⟨hmem, ?_⟩)
            simp only [List.contains_cons, Bool.or_eq_false_iff]
            exact ⟨by simp [hax], hc⟩

/-- The distinct values in first-seen order are exactly the values. -/
theorem firstSeen_mem (a : String) (l : List String) :
    a ∈ firstSeen l ↔ a ∈ l := by
  rw [firstSeen, firstSeenAux_mem]
  simp [List.contains]

/-- The deduplication worker never repeats a value. -/
theorem firstSeenAux_nodup :
    ∀ (l seen : List String), (firstSeenAux seen l).Nodup := by
  intro l
  induction l with
  | nil => intro seen; simp [firstSeenAux]
  | cons x xs ih =>
    intro seen
    by_cases hx : seen.contains x = true
    · have e : firstSeenAux seen (x :: xs)
          = if seen.contains x then firstSeenAux seen xs else x :: firstSeenAux (x :: seen) xs := rfl
      rw [e, if_pos hx]
      exact ih seen
    · have hx' : seen.contains x = false := by
        cases h : seen.contains x
        · rfl
        · exact absurd h hx
      have e : firstSeenAux seen (x :: xs)
          = if seen.contains x then firstSeenAux seen xs else x :: firstSeenAux (x :: seen) xs := rfl
      rw [e, if_neg hx]
      refine List.nodup_cons.mpr ⟨?_, ih (x :: seen)⟩
      intro hmem
      rcases (firstSeenAux_mem x xs (x :: seen)).mp hmem with ⟨_, hc⟩
      simp [List.contains_cons] at hc

/-- First-seen deduplication never repeats a value. -/
theorem firstSeen_nodup (l : List String) : (firstSeen l).Nodup :=
  firstSeenAux_nodup l []

/-- The comparison `strLe` underlying the key sort is total. -/
theorem charsLe_total : ∀ (a b : List Char), charsLe a b = true ∨ charsLe b a = true
  | [], _ => Or.inl rfl
  | _ :: _, [] => Or.inr rfl
  | a :: as, b :: bs => by
    rcases lt_trichotomy a b with h | h | h
    · exact Or.inl (by simp [charsLe, h])
    · subst h
      rcases charsLe_total as bs with ih | ih
      · exact Or.inl (by simp [charsLe, lt_irrefl, ih])
      · exact Or.inr (by simp [charsLe, lt_irrefl, ih])
    · exact Or.inr (by simp [charsLe, h])

/-- Totality of the string comparison. -/
theorem strLe_total (a b : String) : strLe a b = true ∨ strLe b a = true :=
  charsLe_total a.data b.data

/-- Inserting into a list permutes consing onto it. -/
theorem orderedInsert_perm (s : String) :
    ∀ l : List String, List.Perm (orderedInsert s l) (s :: l)
  | [] => List.Perm.refl _
  | t :: ts => by
    by_cases hst : strLe s t = true
    · simp [orderedInsert, hst]
    · rw [show orderedInsert s (t :: ts) = t :: orderedInsert s ts from by
        simp [orderedInsert, hst]]
      exact ((orderedInsert_perm s ts).cons t).trans (List.Perm.swap s t ts)

/-- The key sort permutes its input. -/
theorem sortStrings_perm : ∀ l : List String, List.Perm (sortStrings l) l
  | [] => List.Perm.refl _
  | s :: ss => (orderedInsert_perm s (sortStrings ss)).trans ((sortStrings_perm ss).cons s)

/-- The head of an insertion is the new element or the old head. -/
theorem orderedInsert_head (s : String) (l : List String) :
    (orderedInsert s l).head? = some s ∨ (orderedInsert s l).head? = l.head? := by
  cases l with
  | nil => exact Or.inl rfl
  | cons t ts =>
    by_cases hst : strLe s t = true
    · exact Or.inl (by simp [orderedInsert, hst])
    · exact Or.inr (by simp [orderedInsert, hst])

/-- Inserting preserves ascending adjacency. -/
theorem orderedInsert_chain (s : String) :
    ∀ l : List String, List.Chain' (fun a b => strLe a b = true) l →
      List.Chain' (fun a b => strLe a b = true) (orderedInsert s l)
  | [], _ => by simp [orderedInsert]
  | t :: ts, h => by
    by_cases hst : strLe s t = true
    · rw [show orderedInsert s (t :: ts) = s :: t :: ts from by simp [orderedInsert, hst]]
      exact List.chain'_cons'.mpr ⟨fun y hy => by simp at hy; rw [hy] at hst; exact hst, h⟩
    · have hts : strLe t s = true := (strLe_total s t).resolve_left hst
      rw [show orderedInsert s (t :: ts) = t :: orderedInsert s ts from by
        simp [orderedInsert, hst]]
      have htail := (List.chain'_cons'.mp h).2
      have hhead := (List.chain'_cons'.mp h).1
      refine List.chain'_cons'.mpr ⟨?_, orderedInsert_chain s ts htail⟩
      intro y hy
      rcases orderedInsert_head s ts with he | he
      · rw [he] at hy; simp at hy; rw [hy] at hts; exact hts
      · rw [he] at hy; exact hhead y hy

/-- The key sort produces an ascending chain. -/
theorem sortStrings_chain :
    ∀ l : List String, List.Chain' (fun a b => strLe a b = true) (sortStrings l)
  | [] => List.chain'_nil
  | s :: ss => orderedInsert_chain s (sortStrings ss) (sortStrings_chain ss)

/-! ## C8: grouping partitions the rows -/

/-- Pointwise-equal functions give equal flat maps. -/
theorem flatMap_congr_mem {α β : Type} (f g : α → List β) :
    ∀ l : List α, (∀ a ∈ l, f a = g a) → l.flatMap f = l.flatMap g
  | [], _ => rfl
  | a :: l, h => by
    simp only [List.flatMap_cons]
    rw [h a (List.mem_cons_self a l), flatMap_congr_mem f g l
      (fun x hx => h x (List.mem_cons_of_mem a hx))]

/-- Distinct keys covering all row names slice the row list into a
permutation of itself. -/
theorem flatMap_groups_perm :
    ∀ (ks : List String) (rows : List ResultRow), ks.Nodup →
      (∀ r ∈ rows, r.student_name ∈ ks) →
      List.Perm (ks.flatMap (fun k => rows.filter (fun r => r.student_name == k))) rows
  | [], rows, _, hcov => by
    cases rows with
    | nil => exact List.Perm.refl _
    | cons r rest => exact absurd (hcov r (List.mem_cons_self r rest)) (List.not_mem_nil _)
  | k :: ks, rows, hnd, hcov => by
    have hk_not : k ∉ ks := (List.nodup_cons.mp hnd).1
    have hnd' : ks.Nodup := (List.nodup_cons.mp hnd).2
    set B := rows.filter (fun r => !(r.student_name == k)) with hB
    have hcongr : ∀ k' ∈ ks,
        rows.filter (fun r => r.student_name == k') =
          B.filter (fun r => r.student_name == k') := by
      intro k' hk'
      rw [hB, List.filter_filter]
      refine (List.filter_congr ?_).symm
      intro r _
      cases heq : r.student_name == k'
      · simp
      · have : r.student_name = k' := by simpa using heq
        have : ¬(r.student_name == k) = true := by
          simp only [beq_iff_eq, this]
          intro hkk
          exact hk_not (hkk ▸ hk')
        simp [heq, this]
    have hcovB : ∀ r ∈ B, r.student_name ∈ ks := by
      intro r hr
      rcases List.mem_filter.mp hr with ⟨hmem, hne⟩
      rcases List.mem_cons.mp (hcov r hmem) with he | h
      · exfalso
        simp [he] at hne
      · exact h
    have ih := flatMap_groups_perm ks B hnd' hcovB
    rw [List.flatMap_cons, flatMap_congr_mem _ _ ks hcongr]
    exact (List.Perm.append_left _ ih).trans
      (List.filter_append_perm (fun r => r.student_name == k) rows)

/-- Every group key of `grouped` names a row of the input. -/
theorem groupKeys_mem (rows : List ResultRow) (k : String) :
    k ∈ groupKeys rows ↔ k ∈ rows.map (fun r => r.student_name) := by
  rw [groupKeys]
  rw [(sortStrings_perm _).mem_iff]
  exact firstSeen_mem k _

/-- The group keys are distinct. -/
theorem groupKeys_nodup (rows : List ResultRow) : (groupKeys rows).Nodup :=
  ((sortStrings_perm _).nodup_iff).mpr (firstSeen_nodup _)

/-- Groups produced by `grouped` are never empty, and each holds exactly
the input rows carrying its key, in input order. -/
theorem grouped_groups (rows : List ResultRow) :
    ∀ g ∈ grouped rows,
      g.2 = rows.filter (fun r => r.student_name == g.1) ∧ g.2 ≠ [] := by
  intro g hg
  rcases List.mem_map.mp hg with ⟨k, hk, he⟩
  rcases he
  refine ⟨rfl, ?_⟩
  rcases List.mem_map.mp ((groupKeys_mem rows k).mp hk) with ⟨r, hr, hname⟩
  exact List.ne_nil_of_mem (List.mem_filter.mpr ⟨hr, by simp [hname]⟩)

/-- C8: the Grouper produces exactly one group per distinct student name
(the count of first-seen distinct names), and the concatenation of the
groups' row lists is a permutation of the input rows — no row lost, none
duplicated; moreover every group is nonempty. -/
theorem grouper_partition (rows : List ResultRow) :
    (grouped rows).length = (firstSeen (rows.map (fun r => r.student_name))).length ∧
    List.Perm ((grouped rows).flatMap (fun g => g.2)) rows ∧
    ∀ g ∈ grouped rows, g.2 ≠ [] := by
  refine ⟨?_, ?_, fun g hg => (grouped_groups rows g hg).2⟩
  · rw [grouped, List.length_map, groupKeys]
    exact (sortStrings_perm _).length_eq
  · rw [grouped, List.flatMap_map]
    exact flatMap_groups_perm (groupKeys rows) rows (groupKeys_nodup rows)
      (fun r hr => (groupKeys_mem rows r.student_name).mpr
        (List.mem_map_of_mem (fun r => r.student_name) hr))

/-! ## C1: group order is sorted, not first-seen -/

/-- C1 counterexample: with the two-row input `[rowBeta, rowAlpha]` the
groups come out in ascending name order `["alpha", "beta"]`, while the
first-seen order of the distinct student names is `["beta", "alpha"]` —
the Grouper does not produce groups in first-seen order. -/
theorem grouper_not_first_seen_order :
    (grouped [rowBeta, rowAlpha]).map Prod.fst = ["alpha", "beta"] ∧
    firstSeen ([rowBeta, rowAlpha].map (fun r => r.student_name)) = ["beta", "alpha"] ∧
    ¬ ((grouped [rowBeta, rowAlpha]).map Prod.fst =
        firstSeen ([rowBeta, rowAlpha].map (fun r => r.student_name))) := by
  refine ⟨by decide, by decide, by decide⟩

/-- C1 amended: the Grouper produces its StudentGroup entries keyed by the
distinct student names (one per first-seen distinct name), but ordered
ascending by the string comparison (pandas `groupby` sorts its keys), and
the send loop processes the groups in that same sorted order: the
attempted recipients and the outcome list follow `grouped` order
one-to-one. -/
theorem grouper_sorted_order (transport : String → String → Except String Unit)
    (rows : List ResultRow) :
    List.Chain' (fun a b => strLe a b = true) ((grouped rows).map Prod.fst) ∧
    List.Perm ((grouped rows).map Prod.fst)
      (firstSeen (rows.map (fun r => r.student_name))) ∧
    (runPipeline transport requiredColumns rows true).attempts =
      (grouped rows).map (fun g => resolveEmail g.2) ∧
    (runPipeline transport requiredColumns rows true).outcomes =
      sendPhase transport (grouped rows) := by
  have hfst : (grouped rows).map Prod.fst = groupKeys rows := by
    rw [grouped, List.map_map]
    exact List.map_id _
  refine ⟨?_, ?_, ?_, ?_⟩
  · rw [hfst, groupKeys]
    exact sortStrings_chain _
  · rw [hfst, groupKeys]
    exact sortStrings_perm _
  · unfold runPipeline
    simp only [show (!(requiredColumns.contains "student_name")) = false from by decide,
      show ((missingColumns requiredColumns).isEmpty) = true from by decide,
      Bool.not_true, Bool.and_false, Bool.false_eq_true, if_false]
  · unfold runPipeline
    simp only [show (!(requiredColumns.contains "student_name")) = false from by decide,
      show ((missingColumns requiredColumns).isEmpty) = true from by decide,
      Bool.not_true, Bool.and_false, Bool.false_eq_true, if_false]

/-! ## C4: ambiguous parent emails -/

/-- C4: for every group holding more than one distinct parent_email, the
resolved destination is the parent_email of the group's first row (the
first row in input order, since groups keep input order), the loop emits
the warning naming the student and the chosen address, and the group
still holds all input rows of that student; on the concrete rows with
emails a@x.com, a@x.com, b@x.com the resolved address is a@x.com and the
warning names the student. -/
theorem ambiguous_email_resolution (rows : List ResultRow) (k : String)
    (g : List ResultRow) (hmem : (k, g) ∈ grouped rows)
    (hamb : 1 < (firstSeen (g.map (fun r => r.parent_email))).length) :
    (∃ r rest, g = r :: rest ∧ resolveEmail g = r.parent_email) ∧
    g = rows.filter (fun r => r.student_name == k) ∧
    ("Multiple parent emails found for " ++ k ++ ". Using: " ++ resolveEmail g)
      ∈ groupWarnings (grouped rows) ∧
    (grouped ambiguousRows).map (fun g => resolveEmail g.2) = ["a@x.com"] ∧
    groupWarnings (grouped ambiguousRows) =
      ["Multiple parent emails found for amber. Using: a@x.com"] := by
  have hg := grouped_groups rows (k, g) hmem
  refine ⟨?_, hg.1, ?_, by decide, by decide⟩
  · rcases g with _ | ⟨r, rest⟩
    · exact absurd rfl hg.2
    · exact ⟨r, rest, rfl, rfl⟩
  · rw [groupWarnings]
    refine List.mem_filterMap.mpr ⟨(k, g), hmem, ?_⟩
    show (if 1 < (firstSeen (g.map (fun r => r.parent_email))).length then _ else none) = _
    rw [if_pos hamb]

/-- Witness for `ambiguous_email_resolution`: the hypotheses hold at the
sample ambiguous group and the conclusion follows by the theorem. -/
theorem ambiguous_email_resolution_witness :
    (("amber", ambiguousRows) ∈ grouped ambiguousRows) ∧
    (1 < (firstSeen (ambiguousRows.map (fun r => r.parent_email))).length) ∧
    ((∃ r rest, ambiguousRows = r :: rest ∧
        resolveEmail ambiguousRows = r.parent_email) ∧
      ambiguousRows = ambiguousRows.filter (fun r => r.student_name == "amber") ∧
      ("Multiple parent emails found for " ++ "amber" ++ ". Using: " ++
          resolveEmail ambiguousRows) ∈ groupWarnings (grouped ambiguousRows) ∧
      (grouped ambiguousRows).map (fun g => resolveEmail g.2) = ["a@x.com"] ∧
      groupWarnings (grouped ambiguousRows) =
        ["Multiple parent emails found for amber. Using: a@x.com"]) :=
  ⟨by decide, by decide,
    ambiguous_email_resolution ambiguousRows "amber" ambiguousRows (by decide) (by decide)⟩

/-! ## C5: a missing student_name column never reaches the schema error -/

/-- C5 (code bug): the schema check does name exactly the missing columns
and stop before any send — but only when `student_name` itself is
present.  When `student_name` is missing, the preview line
`df['student_name'].nunique()` (app.py line 111) raises `KeyError` first
and the run ends in the generic `Error processing file` handler: the
promised SchemaError naming exactly the missing columns (here
`student_name` and `Grade Points`) is never produced.  With only
`Grade Points` missing the claimed behavior does hold, with no send
attempted. -/
theorem missing_student_name_preempts_schema_error :
    missingColumns headersNoStudentName = ["student_name", "Grade Points"] ∧
    (runPipeline okTransport headersNoStudentName [rowAlpha] true).result =
      .processingError "student_name" ∧
    (∀ m, (runPipeline okTransport headersNoStudentName [rowAlpha] true).result ≠
      .schemaError m) ∧
    (runPipeline okTransport headersNoStudentName [rowAlpha] true).attempts = [] ∧
    (runPipeline okTransport headersNoGradePoints [rowAlpha] true).result =
      .schemaError ["Grade Points"] ∧
    (runPipeline okTransport headersNoGradePoints [rowAlpha] true).attempts = [] := by
  refine ⟨by decide, by decide, ?_, by decide, by decide, by decide⟩
  intro m h
  rw [show (runPipeline okTransport headersNoStudentName [rowAlpha] true).result =
    .processingError "student_name" from by decide] at h
  exact RunResult.noConfusion h

/-! ## C6: the email validation gate -/

/-- `takeWhile`/`dropWhile` on a list that satisfies the predicate up to a
first failing element. -/
theorem takeWhile_dropWhile_append {α : Type} (p : α → Bool) :
    ∀ (l : List α) (x : α) (xs : List α), (∀ c ∈ l, p c = true) → p x = false →
      (l ++ x :: xs).takeWhile p = l ∧ (l ++ x :: xs).dropWhile p = x :: xs
  | [], x, xs, _, hx => by
    simp [List.takeWhile_cons, List.dropWhile_cons, hx]
  | a :: l, x, xs, h, hx => by
    have ha : p a = true := h a (List.mem_cons_self a l)
    have ih := takeWhile_dropWhile_append p l x xs
      (fun c hc => h c (List.mem_cons_of_mem a hc)) hx
    simp [List.takeWhile_cons, List.dropWhile_cons, ha, ih.1, ih.2]

/-- The head surviving `dropWhile` fails the predicate. -/
theorem dropWhile_head_false {α : Type} (p : α → Bool) :
    ∀ (l : List α) (x : α) (xs : List α), l.dropWhile p = x :: xs → p x = false
  | [], x, xs, h => by cases h
  | a :: l, x, xs, h => by
    cases ha : p a
    · rw [List.dropWhile_cons, ha] at h
      simp only [Bool.false_eq_true, if_false] at h
      cases h
      exact ha
    · rw [List.dropWhile_cons, ha] at h
      simp only [if_true] at h
      exact dropWhile_head_false p l x xs h

/-- Local-part characters are not `@`. -/
theorem localChar_ne_at {c : Char} (h : isLocalChar c = true) : (c != '@') = true := by
  refine bne_iff_ne.mpr ?_
  rintro rfl
  exact absurd h (by decide)

/-- Final-label characters are not dots. -/
theorem tldChar_ne_dot {c : Char} (h : isTldChar c = true) : (c != '.') = true := by
  refine bne_iff_ne.mpr ?_
  rintro rfl
  exact absurd h (by decide)

/-- Reversing an append around a middle element. -/
theorem reverse_append_cons {α : Type} (x z : List α) (y : α) :
    (x ++ y :: z).reverse = z.reverse ++ y :: x.reverse := by
  simp [List.reverse_append]

/-- The executable matcher agrees with the existential reading of the
regex `^[a-zA-Z0-9._%+-]+@[a-zA-Z0-9.-]+\.[a-zA-Z]{2,}$`: a match is a
split into a nonempty local part, the `@`, a nonempty domain part, a dot
and a final label of at least two letters. -/
theorem emailMatch_iff_splits (cs : List Char) :
    emailMatch cs = true ↔
      ∃ l d t, cs = l ++ '@' :: (d ++ '.' :: t) ∧
        l ≠ [] ∧ (∀ c ∈ l, isLocalChar c = true) ∧
        d ≠ [] ∧ (∀ c ∈ d, isDomainChar c = true) ∧
        2 ≤ t.length ∧ (∀ c ∈ t, isTldChar c = true) := by
  constructor
  · intro h
    unfold emailMatch at h
    split at h
    · cases h
    next a rest e1 =>
      split at h
      · cases h
      next b domRev e2 =>
        simp only [Bool.and_eq_true, Bool.not_eq_true', List.all_eq_true,
          decide_eq_true_eq] at h
        obtain ⟨⟨⟨⟨⟨hne, hlocal⟩, hdne⟩, hdom⟩, hlen⟩, htld⟩ := h
        have ha : a = '@' := by
          have := dropWhile_head_false _ cs a rest e1
          simpa using this
        have hb : b = '.' := by
          have := dropWhile_head_false _ rest.reverse b domRev e2
          simpa using this
        subst ha
        subst hb
        have hcs : cs.takeWhile (fun c => c != '@') ++ '@' :: rest = cs := by
          rw [← e1]; exact List.takeWhile_append_dropWhile _ _
        have hrest : rest.reverse.takeWhile (fun c => c != '.') ++ '.' :: domRev
            = rest.reverse := by
          rw [← e2]; exact List.takeWhile_append_dropWhile _ _
        have hrev3 : rest = domRev.reverse ++ '.' ::
            (rest.reverse.takeWhile (fun c => c != '.')).reverse :=
          (List.reverse_reverse rest).symm.trans
            ((congrArg List.reverse hrest.symm).trans
              (reverse_append_cons _ domRev '.'))
        refine ⟨cs.takeWhile (fun c => c != '@'), domRev.reverse,
          (rest.reverse.takeWhile (fun c => c != '.')).reverse,
          ?_, ?_, hlocal, ?_, ?_, ?_, ?_⟩
        · exact hcs.symm.trans
            (congrArg (fun z => cs.takeWhile (fun c => c != '@') ++ '@' :: z) hrev3)
        · intro he
          rw [he] at hne
          simp at hne
        · intro he
          have hd : domRev = [] := by simpa using congrArg List.reverse he
          rw [hd] at hdne
          simp at hdne
        · intro c hc
          exact hdom c (List.mem_reverse.mp hc)
        · simpa using hlen
        · intro c hc
          exact htld c (List.mem_reverse.mp hc)
  · rintro ⟨l, d, t, rfl, hlne, hlocal, hdne, hdom, hlen, htld⟩
    have hdw : (l ++ '@' :: (d ++ '.' :: t)).dropWhile (fun c => c != '@')
        = '@' :: (d ++ '.' :: t) :=
      (takeWhile_dropWhile_append _ l _ _ (fun c hc => localChar_ne_at (hlocal c hc))
        (by simp)).2
    have htw : (l ++ '@' :: (d ++ '.' :: t)).takeWhile (fun c => c != '@') = l :=
      (takeWhile_dropWhile_append _ l _ _ (fun c hc => localChar_ne_at (hlocal c hc))
        (by simp)).1
    have hrev : (d ++ '.' :: t).reverse = t.reverse ++ '.' :: d.reverse :=
      reverse_append_cons d t '.'
    have hdw2 : (d ++ '.' :: t).reverse.dropWhile (fun c => c != '.')
        = '.' :: d.reverse := by
      rw [hrev]
      exact (takeWhile_dropWhile_append _ t.reverse _ _
        (fun c hc => tldChar_ne_dot (htld c (List.mem_reverse.mp hc))) (by simp)).2
    have htw2 : (d ++ '.' :: t).reverse.takeWhile (fun c => c != '.') = t.reverse := by
      rw [hrev]
      exact (takeWhile_dropWhile_append _ t.reverse _ _
        (fun c hc => tldChar_ne_dot (htld c (List.mem_reverse.mp hc))) (by simp)).1
    unfold emailMatch
    rw [hdw]
    dsimp only
    rw [hdw2]
    dsimp only
    simp only [Bool.and_eq_true, Bool.not_eq_true', List.all_eq_true, decide_eq_true_eq]
    refine ⟨⟨⟨⟨⟨?_, ?_⟩, ?_⟩, ?_⟩, ?_⟩, ?_⟩
    · rw [htw]
      cases l with
      | nil => exact absurd rfl hlne
      | cons a l => rfl
    · rw [htw]; exact hlocal
    · cases d with
      | nil => exact absurd rfl hdne
      | cons a d => simp
    · intro c hc
      exact hdom c (List.mem_reverse.mp hc)
    · rw [htw2]; simpa using hlen
    · rw [htw2]
      intro c hc
      exact htld c (List.mem_reverse.mp hc)

/-- C6: a parent_email is flagged invalid exactly when it fails the
pattern (local part over alphanumerics and `._%+-`, domain over
alphanumerics, dots and hyphens, final label of at least two letters);
flagged rows are reported as `(student_name, parent_email)` pairs, and
without operator confirmation the run stops there: no warning, no
attempt, no outcome, no progress update, and a success count of 0 over
the (empty) outcome list. -/
theorem email_validation_gate (transport : String → String → Except String Unit)
    (headers : List String) (rows : List ResultRow)
    (h1 : headers.contains "student_name" = true)
    (h2 : missingColumns headers = [])
    (hinv : invalidRows rows ≠ []) :
    (∀ s : String, emailValid s = true ↔
      ∃ l d t, s.data = l ++ '@' :: (d ++ '.' :: t) ∧
        l ≠ [] ∧ (∀ c ∈ l, isLocalChar c = true) ∧
        d ≠ [] ∧ (∀ c ∈ d, isDomainChar c = true) ∧
        2 ≤ t.length ∧ (∀ c ∈ t, isTldChar c = true)) ∧
    (∀ r : ResultRow, r ∈ invalidRows rows ↔ r ∈ rows ∧ emailValid r.parent_email = false) ∧
    runPipeline transport headers rows false =
      ⟨.stoppedInvalidEmails
        ((invalidRows rows).map (fun r => (r.student_name, r.parent_email))),
        [], [], [], []⟩ ∧
    success_count (runPipeline transport headers rows false).outcomes = 0 := by
  have h3 : (invalidRows rows).isEmpty = false := by
    cases e : invalidRows rows with
    | nil => exact absurd e hinv
    | cons a l => rfl
  have hrun : runPipeline transport headers rows false =
      ⟨.stoppedInvalidEmails
        ((invalidRows rows).map (fun r => (r.student_name, r.parent_email))),
        [], [], [], []⟩ := by
    unfold runPipeline
    rw [h1, h2]
    simp only [h3, Bool.not_true, Bool.not_false, Bool.false_eq_true, if_false,
      List.isEmpty_nil, Bool.and_true, Bool.true_eq_false, if_true]
  refine ⟨fun s => emailMatch_iff_splits s.data, ?_, hrun, by rw [hrun]; rfl⟩
  intro r
  rw [invalidRows, List.mem_filter]
  simp only [Bool.not_eq_true']

/-- Witness for `email_validation_gate`: with the full header set, one row
whose email is `not-an-email`, and no confirmation, the hypotheses hold
and the gate theorem applies. -/
theorem email_validation_gate_witness :
    (requiredColumns.contains "student_name" = true) ∧
    (missingColumns requiredColumns = []) ∧
    (invalidRows [badEmailRow] ≠ []) ∧
    ((∀ s : String, emailValid s = true ↔
      ∃ l d t, s.data = l ++ '@' :: (d ++ '.' :: t) ∧
        l ≠ [] ∧ (∀ c ∈ l, isLocalChar c = true) ∧
        d ≠ [] ∧ (∀ c ∈ d, isDomainChar c = true) ∧
        2 ≤ t.length ∧ (∀ c ∈ t, isTldChar c = true)) ∧
    (∀ r : ResultRow, r ∈ invalidRows [badEmailRow] ↔
      r ∈ [badEmailRow] ∧ emailValid r.parent_email = false) ∧
    runPipeline okTransport requiredColumns [badEmailRow] false =
      ⟨.stoppedInvalidEmails
        ((invalidRows [badEmailRow]).map (fun r => (r.student_name, r.parent_email))),
        [], [], [], []⟩ ∧
    success_count (runPipeline okTransport requiredColumns [badEmailRow] false).outcomes = 0) :=
  ⟨by decide, by decide, by decide,
    email_validation_gate okTransport requiredColumns [badEmailRow]
      (by decide) (by decide) (by decide)⟩

/-! ## C7: structure of the rendered HTML -/

/-- `String.data` distributes over append. -/
theorem data_append (a b : String) : (a ++ b).data = a.data ++ b.data := rfl

/-- A list is a Boolean prefix of itself extended. -/
theorem isPrefixOf_append_self : ∀ (l r : List Char), l.isPrefixOf (l ++ r) = true
  | [], _ => by simp [List.isPrefixOf]
  | a :: l, r => by simp [List.isPrefixOf, isPrefixOf_append_self l r]

/-- Disagreement within the overlap rules out prefixhood of any
extension. -/
theorem disagrees_isPrefixOf_false :
    ∀ (tag s r : List Char), disagrees tag s = true → tag.isPrefixOf (s ++ r) = false
  | [], s, r, h => by cases s <;> simp [disagrees] at h
  | t :: ts, [], r, h => by simp [disagrees] at h
  | t :: ts, c :: cs, r, h => by
    have e : disagrees (t :: ts) (c :: cs) = if t = c then disagrees ts cs else true := rfl
    by_cases htc : t = c
    · rw [e, if_pos htc] at h
      subst htc
      simp [List.isPrefixOf, disagrees_isPrefixOf_false ts cs r h]
    · simp [List.isPrefixOf, beq_iff_eq, htc]

/-- Scanning skips a clean block entirely, whatever follows it. -/
theorem cells_skip (tag : List Char) :
    ∀ (a rest : List Char), cleanFor tag a = true →
      cells tag (a ++ rest) = cells tag rest
  | [], rest, _ => rfl
  | x :: a, rest, h => by
    have hall := List.all_eq_true.mp h
    have hx : disagrees tag (x :: a) = true := by
      have := hall (x :: a) (by rw [List.tails_cons]; exact List.mem_cons_self _ _)
      simpa using this
    have ha : cleanFor tag a = true := by
      rw [cleanFor, List.all_eq_true]
      intro s hs
      exact hall s (by rw [List.tails_cons]; exact List.mem_cons_of_mem _ hs)
    have hpref : tag.isPrefixOf (x :: (a ++ rest)) = false :=
      disagrees_isPrefixOf_false tag (x :: a) rest hx
    have e : cells tag (x :: (a ++ rest))
        = if tag.isPrefixOf (x :: (a ++ rest))
          then takeCell ((x :: (a ++ rest)).drop tag.length) :: cells tag (a ++ rest)
          else cells tag (a ++ rest) := rfl
    rw [List.cons_append, e, if_neg (by rw [hpref]; exact Bool.false_ne_true)]
    exact cells_skip tag a rest ha

/-- Scanning for a tag starting with `t` skips any block free of `t`. -/
theorem cells_skip_front (t : Char) (ts : List Char) :
    ∀ (a rest : List Char), (∀ c ∈ a, ¬ c = t) →
      cells (t :: ts) (a ++ rest) = cells (t :: ts) rest
  | [], rest, _ => rfl
  | x :: a, rest, h => by
    have hx : (t == x) = false :=
      beq_eq_false_iff_ne.mpr (fun he => h x (List.mem_cons_self x a) he.symm)
    have hpref : (t :: ts).isPrefixOf (x :: (a ++ rest)) = false := by
      simp [List.isPrefixOf, hx]
    have e : cells (t :: ts) (x :: (a ++ rest))
        = if (t :: ts).isPrefixOf (x :: (a ++ rest))
          then takeCell ((x :: (a ++ rest)).drop (t :: ts).length)
            :: cells (t :: ts) (a ++ rest)
          else cells (t :: ts) (a ++ rest) := rfl
    rw [List.cons_append, e, if_neg (by rw [hpref]; exact Bool.false_ne_true)]
    exact cells_skip_front t ts a rest (fun c hc => h c (List.mem_cons_of_mem x hc))

/-- At an occurrence of the tag, scanning records the following cell. -/
theorem cells_match (t : Char) (ts rest : List Char) :
    cells (t :: ts) ((t :: ts) ++ rest)
      = takeCell rest :: cells (t :: ts) (ts ++ rest) := by
  have e : cells (t :: ts) (t :: (ts ++ rest))
      = if (t :: ts).isPrefixOf (t :: (ts ++ rest))
        then takeCell ((t :: (ts ++ rest)).drop (t :: ts).length)
          :: cells (t :: ts) (ts ++ rest)
        else cells (t :: ts) (ts ++ rest) := rfl
  have hpref : (t :: ts).isPrefixOf (t :: (ts ++ rest)) = true :=
    isPrefixOf_append_self (t :: ts) rest
  rw [List.cons_append, e, if_pos hpref]
  congr 1
  show takeCell ((ts ++ rest).drop ts.length) = takeCell rest
  rw [List.drop_left]

/-- The cell after a tag is everything up to the next `<`. -/
theorem takeCell_append (a r : List Char) (h : ∀ c ∈ a, (c != '<') = true) :
    takeCell (a ++ '<' :: r) = a :=
  (takeWhile_dropWhile_append (fun c => c != '<') a '<' r h (by simp)).1

/-- One `<th>` occurrence: record the cell, continue after the tag. -/
theorem cells_th_step (rest : List Char) :
    cells thTag (thTag ++ rest) = takeCell rest :: cells thTag rest :=
  (cells_match '<' ['t', 'h', '>'] rest).trans
    (congrArg (fun z => takeCell rest :: z)
      (cells_skip_front '<' ['t', 'h', '>'] ['t', 'h', '>'] rest (by decide)))

/-- One `<td>` occurrence: record the cell, continue after the tag. -/
theorem cells_td_step (rest : List Char) :
    cells tdTag (tdTag ++ rest) = takeCell rest :: cells tdTag rest :=
  (cells_match '<' ['t', 'd', '>'] rest).trans
    (congrArg (fun z => takeCell rest :: z)
      (cells_skip_front '<' ['t', 'd', '>'] ['t', 'd', '>'] rest (by decide)))

/-- One `<tr>` occurrence: record the cell, continue after the tag. -/
theorem cells_tr_step (rest : List Char) :
    cells trTag (trTag ++ rest) = takeCell rest :: cells trTag rest :=
  (cells_match '<' ['t', 'r', '>'] rest).trans
    (congrArg (fun z => takeCell rest :: z)
      (cells_skip_front '<' ['t', 'r', '>'] ['t', 'r', '>'] rest (by decide)))

/-- The renderer's fold decomposes: head, one fragment per row in order,
tail. -/
theorem htmlContent_data (student_name : String) (rows : List ResultRow) :
    (htmlContent student_name rows).data =
      htmlStyleBlock.data ++ (student_name.data ++ (htmlAfterName.data ++
        (fragsData rows ++ htmlTail.data))) := by
  have hfold : ∀ (rs : List ResultRow) (init : String),
      (rs.foldl (fun acc r => acc ++ rowFragment r) init).data
        = init.data ++ fragsData rs := by
    intro rs
    induction rs with
    | nil => intro init; simp [fragsData]
    | cons r rs ih =>
      intro init
      rw [List.foldl_cons, ih (init ++ rowFragment r), data_append]
      rw [show fragsData (r :: rs) = (rowFragment r).data ++ fragsData rs from rfl]
      rw [List.append_assoc]
  rw [htmlContent, data_append, hfold rows (htmlHead student_name)]
  rw [show (htmlHead student_name).data
      = htmlStyleBlock.data ++ (student_name.data ++ htmlAfterName.data) from rfl]
  simp [List.append_assoc]

/-- Scanning the post-name head block for `<th>` yields exactly the seven
header cells, whatever follows the block. -/
theorem cells_th_afterName (rest : List Char) :
    cells thTag (htmlAfterName.data ++ rest) = headerCells ++ cells thTag rest := by
  have e : htmlAfterName.data =
      chHeadPre ++ (thTag ++ (hdrCourseCode ++ ('<' :: (chThSep ++ (thTag ++ (hdrCourseName ++ ('<' :: (chThSep ++ (thTag ++ (hdrMonthYear ++ ('<' :: (chThSep ++ (thTag ++ (hdrGrade ++ ('<' :: (chThSep ++ (thTag ++ (hdrGradePoints ++ ('<' :: (chThSep ++ (thTag ++ (hdrCredits ++ ('<' :: (chThSep ++ (thTag ++ (hdrResult ++ ('<' :: chThLast))))))))))))))))))))))))))) := by decide
  rw [e]
  simp only [List.append_assoc, List.cons_append]
  rw [show ∀ r, cells thTag (chHeadPre ++ r) = cells thTag r from
    fun r => cells_skip thTag _ r (by decide)]
  rw [cells_th_step]
  rw [show ∀ r, takeCell (hdrCourseCode ++ '<' :: r) = hdrCourseCode from
    fun r => takeCell_append _ r (by decide)]
  rw [show ∀ r, cells thTag (hdrCourseCode ++ '<' :: r) = cells thTag ('<' :: r) from
    fun r => cells_skip thTag _ ('<' :: r) (by decide)]
  rw [show ∀ r, cells thTag ('<' :: (chThSep ++ r)) = cells thTag r from
    fun r => cells_skip thTag ('<' :: chThSep) r (by decide)]
  rw [cells_th_step]
  rw [show ∀ r, takeCell (hdrCourseName ++ '<' :: r) = hdrCourseName from
    fun r => takeCell_append _ r (by decide)]
  rw [show ∀ r, cells thTag (hdrCourseName ++ '<' :: r) = cells thTag ('<' :: r) from
    fun r => cells_skip thTag _ ('<' :: r) (by decide)]
  rw [show ∀ r, cells thTag ('<' :: (chThSep ++ r)) = cells thTag r from
    fun r => cells_skip thTag ('<' :: chThSep) r (by decide)]
  rw [cells_th_step]
  rw [show ∀ r, takeCell (hdrMonthYear ++ '<' :: r) = hdrMonthYear from
    fun r => takeCell_append _ r (by decide)]
  rw [show ∀ r, cells thTag (hdrMonthYear ++ '<' :: r) = cells thTag ('<' :: r) from
    fun r => cells_skip thTag _ ('<' :: r) (by decide)]
  rw [show ∀ r, cells thTag ('<' :: (chThSep ++ r)) = cells thTag r from
    fun r => cells_skip thTag ('<' :: chThSep) r (by decide)]
  rw [cells_th_step]
  rw [show ∀ r, takeCell (hdrGrade ++ '<' :: r) = hdrGrade from
    fun r => takeCell_append _ r (by decide)]
  rw [show ∀ r, cells thTag (hdrGrade ++ '<' :: r) = cells thTag ('<' :: r) from
    fun r => cells_skip thTag _ ('<' :: r) (by decide)]
  rw [show ∀ r, cells thTag ('<' :: (chThSep ++ r)) = cells thTag r from
    fun r => cells_skip thTag ('<' :: chThSep) r (by decide)]
  rw [cells_th_step]
  rw [show ∀ r, takeCell (hdrGradePoints ++ '<' :: r) = hdrGradePoints from
    fun r => takeCell_append _ r (by decide)]
  rw [show ∀ r, cells thTag (hdrGradePoints ++ '<' :: r) = cells thTag ('<' :: r) from
    fun r => cells_skip thTag _ ('<' :: r) (by decide)]
  rw [show ∀ r, cells thTag ('<' :: (chThSep ++ r)) = cells thTag r from
    fun r => cells_skip thTag ('<' :: chThSep) r (by decide)]
  rw [cells_th_step]
  rw [show ∀ r, takeCell (hdrCredits ++ '<' :: r) = hdrCredits from
    fun r => takeCell_append _ r (by decide)]
  rw [show ∀ r, cells thTag (hdrCredits ++ '<' :: r) = cells thTag ('<' :: r) from
    fun r => cells_skip thTag _ ('<' :: r) (by decide)]
  rw [show ∀ r, cells thTag ('<' :: (chThSep ++ r)) = cells thTag r from
    fun r => cells_skip thTag ('<' :: chThSep) r (by decide)]
  rw [cells_th_step]
  rw [show ∀ r, takeCell (hdrResult ++ '<' :: r) = hdrResult from
    fun r => takeCell_append _ r (by decide)]
  rw [show ∀ r, cells thTag (hdrResult ++ '<' :: r) = cells thTag ('<' :: r) from
    fun r => cells_skip thTag _ ('<' :: r) (by decide)]
  rw [show cells thTag ('<' :: (chThLast ++ rest)) = cells thTag rest from
    cells_skip thTag ('<' :: chThLast) rest (by decide)]
  rfl

/-- A `<`-free block is skipped when scanning for `<td>`. -/
theorem noLt_skip_td (a : List Char) (h : ∀ c ∈ a, (c != '<') = true) (rest : List Char) :
    cells tdTag (a ++ rest) = cells tdTag rest :=
  cells_skip_front '<' ['t', 'd', '>'] a rest (fun c hc he => by
    have hb := h c hc
    rw [he] at hb
    simp at hb)

/-- A `<`-free block is skipped when scanning for `<th>`. -/
theorem noLt_skip_th (a : List Char) (h : ∀ c ∈ a, (c != '<') = true) (rest : List Char) :
    cells thTag (a ++ rest) = cells thTag rest :=
  cells_skip_front '<' ['t', 'h', '>'] a rest (fun c hc he => by
    have hb := h c hc
    rw [he] at hb
    simp at hb)

/-- A `<`-free block is skipped when scanning for `<tr>`. -/
theorem noLt_skip_tr (a : List Char) (h : ∀ c ∈ a, (c != '<') = true) (rest : List Char) :
    cells trTag (a ++ rest) = cells trTag rest :=
  cells_skip_front '<' ['t', 'r', '>'] a rest (fun c hc he => by
    have hb := h c hc
    rw [he] at hb
    simp at hb)

/-- Scanning the post-name head block for `<tr>` records exactly one row
(the header row), whatever follows the block. -/
theorem cells_tr_afterName (rest : List Char) :
    ∃ x, cells trTag (htmlAfterName.data ++ rest) = x :: cells trTag rest := by
  have e : htmlAfterName.data = chHeadPreTr ++ (trTag ++ chHeadRowTr) := by decide
  rw [e]
  simp only [List.append_assoc]
  rw [show ∀ r, cells trTag (chHeadPreTr ++ r) = cells trTag r from
    fun r => cells_skip trTag _ r (by decide)]
  rw [cells_tr_step]
  rw [show ∀ r, cells trTag (chHeadRowTr ++ r) = cells trTag r from
    fun r => cells_skip trTag _ r (by decide)]
  exact ⟨_, rfl⟩

/-- The seven 'no `<` in this field' facts of a clean row. -/
theorem rowClean_fields (r : ResultRow) (h : rowClean r = true) :
    (∀ c ∈ r.course_code.data, (c != '<') = true) ∧
    (∀ c ∈ r.course_name.data, (c != '<') = true) ∧
    (∀ c ∈ r.month_year.data, (c != '<') = true) ∧
    (∀ c ∈ r.grade.data, (c != '<') = true) ∧
    (∀ c ∈ r.grade_points.data, (c != '<') = true) ∧
    (∀ c ∈ r.credits.data, (c != '<') = true) ∧
    (∀ c ∈ r.result.data, (c != '<') = true) := by
  rw [rowClean] at h
  simp only [Bool.and_eq_true] at h
  obtain ⟨⟨⟨⟨⟨⟨h1, h2⟩, h3⟩, h4⟩, h5⟩, h6⟩, h7⟩ := h
  exact ⟨List.all_eq_true.mp h1, List.all_eq_true.mp h2, List.all_eq_true.mp h3,
    List.all_eq_true.mp h4, List.all_eq_true.mp h5, List.all_eq_true.mp h6,
    List.all_eq_true.mp h7⟩

/-- Scanning one row fragment for `<td>` yields the row's seven cell
values in column order, whatever follows the fragment. -/
theorem cells_td_fragment (r : ResultRow) (rest : List Char) (h : rowClean r = true) :
    cells tdTag ((rowFragment r).data ++ rest) = rowCells r ++ cells tdTag rest := by
  obtain ⟨f1, f2, f3, f4, f5, f6, f7⟩ := rowClean_fields r h
  have eo : tdRowOpen.data = chTdPre ++ tdTag := by decide
  have es : tdCellSep.data = '<' :: (chMSep ++ tdTag) := by decide
  have ec : tdRowClose.data = '<' :: chESep := by decide
  unfold rowFragment
  simp only [data_append, List.append_assoc]
  rw [eo, es, ec]
  simp only [List.append_assoc, List.cons_append]
  rw [show ∀ r2, cells tdTag (chTdPre ++ r2) = cells tdTag r2 from
    fun r2 => cells_skip tdTag _ r2 (by decide)]
  rw [cells_td_step]
  rw [show ∀ r2, takeCell (r.course_code.data ++ '<' :: r2) = r.course_code.data from
    fun r2 => takeCell_append _ r2 f1]
  rw [show ∀ r2, cells tdTag (r.course_code.data ++ r2) = cells tdTag r2 from
    fun r2 => noLt_skip_td _ f1 r2]
  rw [show ∀ r2, cells tdTag ('<' :: (chMSep ++ r2)) = cells tdTag r2 from
    fun r2 => cells_skip tdTag ('<' :: chMSep) r2 (by decide)]
  rw [cells_td_step]
  rw [show ∀ r2, takeCell (r.course_name.data ++ '<' :: r2) = r.course_name.data from
    fun r2 => takeCell_append _ r2 f2]
  rw [show ∀ r2, cells tdTag (r.course_name.data ++ r2) = cells tdTag r2 from
    fun r2 => noLt_skip_td _ f2 r2]
  rw [show ∀ r2, cells tdTag ('<' :: (chMSep ++ r2)) = cells tdTag r2 from
    fun r2 => cells_skip tdTag ('<' :: chMSep) r2 (by decide)]
  rw [cells_td_step]
  rw [show ∀ r2, takeCell (r.month_year.data ++ '<' :: r2) = r.month_year.data from
    fun r2 => takeCell_append _ r2 f3]
  rw [show ∀ r2, cells tdTag (r.month_year.data ++ r2) = cells tdTag r2 from
    fun r2 => noLt_skip_td _ f3 r2]
  rw [show ∀ r2, cells tdTag ('<' :: (chMSep ++ r2)) = cells tdTag r2 from
    fun r2 => cells_skip tdTag ('<' :: chMSep) r2 (by decide)]
  rw [cells_td_step]
  rw [show ∀ r2, takeCell (r.grade.data ++ '<' :: r2) = r.grade.data from
    fun r2 => takeCell_append _ r2 f4]
  rw [show ∀ r2, cells tdTag (r.grade.data ++ r2) = cells tdTag r2 from
    fun r2 => noLt_skip_td _ f4 r2]
  rw [show ∀ r2, cells tdTag ('<' :: (chMSep ++ r2)) = cells tdTag r2 from
    fun r2 => cells_skip tdTag ('<' :: chMSep) r2 (by decide)]
  rw [cells_td_step]
  rw [show ∀ r2, takeCell (r.grade_points.data ++ '<' :: r2) = r.grade_points.data from
    fun r2 => takeCell_append _ r2 f5]
  rw [show ∀ r2, cells tdTag (r.grade_points.data ++ r2) = cells tdTag r2 from
    fun r2 => noLt_skip_td _ f5 r2]
  rw [show ∀ r2, cells tdTag ('<' :: (chMSep ++ r2)) = cells tdTag r2 from
    fun r2 => cells_skip tdTag ('<' :: chMSep) r2 (by decide)]
  rw [cells_td_step]
  rw [show ∀ r2, takeCell (r.credits.data ++ '<' :: r2) = r.credits.data from
    fun r2 => takeCell_append _ r2 f6]
  rw [show ∀ r2, cells tdTag (r.credits.data ++ r2) = cells tdTag r2 from
    fun r2 => noLt_skip_td _ f6 r2]
  rw [show ∀ r2, cells tdTag ('<' :: (chMSep ++ r2)) = cells tdTag r2 from
    fun r2 => cells_skip tdTag ('<' :: chMSep) r2 (by decide)]
  rw [cells_td_step]
  rw [show ∀ r2, takeCell (r.result.data ++ '<' :: r2) = r.result.data from
    fun r2 => takeCell_append _ r2 f7]
  rw [show ∀ r2, cells tdTag (r.result.data ++ r2) = cells tdTag r2 from
    fun r2 => noLt_skip_td _ f7 r2]
  rw [show cells tdTag ('<' :: (chESep ++ rest)) = cells tdTag rest from
    cells_skip tdTag ('<' :: chESep) rest (by decide)]
  rfl

/-- A row fragment holds no `<th>`: scanning for headers skips it. -/
theorem cells_th_fragment (r : ResultRow) (rest : List Char) (h : rowClean r = true) :
    cells thTag ((rowFragment r).data ++ rest) = cells thTag rest := by
  obtain ⟨f1, f2, f3, f4, f5, f6, f7⟩ := rowClean_fields r h
  unfold rowFragment
  simp only [data_append, List.append_assoc]
  rw [show ∀ r2, cells thTag (tdRowOpen.data ++ r2) = cells thTag r2 from
    fun r2 => cells_skip thTag _ r2 (by decide)]
  rw [show ∀ r2, cells thTag (r.course_code.data ++ r2) = cells thTag r2 from
    fun r2 => noLt_skip_th _ f1 r2]
  rw [show ∀ r2, cells thTag (tdCellSep.data ++ r2) = cells thTag r2 from
    fun r2 => cells_skip thTag _ r2 (by decide)]
  rw [show ∀ r2, cells thTag (r.course_name.data ++ r2) = cells thTag r2 from
    fun r2 => noLt_skip_th _ f2 r2]
  rw [show ∀ r2, cells thTag (tdCellSep.data ++ r2) = cells thTag r2 from
    fun r2 => cells_skip thTag _ r2 (by decide)]
  rw [show ∀ r2, cells thTag (r.month_year.data ++ r2) = cells thTag r2 from
    fun r2 => noLt_skip_th _ f3 r2]
  rw [show ∀ r2, cells thTag (tdCellSep.data ++ r2) = cells thTag r2 from
    fun r2 => cells_skip thTag _ r2 (by decide)]
  rw [show ∀ r2, cells thTag (r.grade.data ++ r2) = cells thTag r2 from
    fun r2 => noLt_skip_th _ f4 r2]
  rw [show ∀ r2, cells thTag (tdCellSep.data ++ r2) = cells thTag r2 from
    fun r2 => cells_skip thTag _ r2 (by decide)]
  rw [show ∀ r2, cells thTag (r.grade_points.data ++ r2) = cells thTag r2 from
    fun r2 => noLt_skip_th _ f5 r2]
  rw [show ∀ r2, cells thTag (tdCellSep.data ++ r2) = cells thTag r2 from
    fun r2 => cells_skip thTag _ r2 (by decide)]
  rw [show ∀ r2, cells thTag (r.credits.data ++ r2) = cells thTag r2 from
    fun r2 => noLt_skip_th _ f6 r2]
  rw [show ∀ r2, cells thTag (tdCellSep.data ++ r2) = cells thTag r2 from
    fun r2 => cells_skip thTag _ r2 (by decide)]
  rw [show ∀ r2, cells thTag (r.result.data ++ r2) = cells thTag r2 from
    fun r2 => noLt_skip_th _ f7 r2]
  rw [show cells thTag (tdRowClose.data ++ rest) = cells thTag rest from
    cells_skip thTag _ rest (by decide)]

/-- A row fragment holds exactly one `<tr>`: scanning for rows records
one entry for it. -/
theorem cells_tr_fragment (r : ResultRow) (rest : List Char) (h : rowClean r = true) :
    ∃ x, cells trTag ((rowFragment r).data ++ rest) = x :: cells trTag rest := by
  obtain ⟨f1, f2, f3, f4, f5, f6, f7⟩ := rowClean_fields r h
  have eo : tdRowOpen.data = chN1 ++ (trTag ++ chN2td) := by decide
  unfold rowFragment
  simp only [data_append, List.append_assoc]
  rw [eo]
  simp only [List.append_assoc]
  rw [show ∀ r2, cells trTag (chN1 ++ r2) = cells trTag r2 from
    fun r2 => cells_skip trTag _ r2 (by decide)]
  rw [cells_tr_step]
  rw [show ∀ r2, cells trTag (chN2td ++ r2) = cells trTag r2 from
    fun r2 => cells_skip trTag _ r2 (by decide)]
  rw [show ∀ r2, cells trTag (r.course_code.data ++ r2) = cells trTag r2 from
    fun r2 => noLt_skip_tr _ f1 r2]
  rw [show ∀ r2, cells trTag (tdCellSep.data ++ r2) = cells trTag r2 from
    fun r2 => cells_skip trTag _ r2 (by decide)]
  rw [show ∀ r2, cells trTag (r.course_name.data ++ r2) = cells trTag r2 from
    fun r2 => noLt_skip_tr _ f2 r2]
  rw [show ∀ r2, cells trTag (tdCellSep.data ++ r2) = cells trTag r2 from
    fun r2 => cells_skip trTag _ r2 (by decide)]
  rw [show ∀ r2, cells trTag (r.month_year.data ++ r2) = cells trTag r2 from
    fun r2 => noLt_skip_tr _ f3 r2]
  rw [show ∀ r2, cells trTag (tdCellSep.data ++ r2) = cells trTag r2 from
    fun r2 => cells_skip trTag _ r2 (by decide)]
  rw [show ∀ r2, cells trTag (r.grade.data ++ r2) = cells trTag r2 from
    fun r2 => noLt_skip_tr _ f4 r2]
  rw [show ∀ r2, cells trTag (tdCellSep.data ++ r2) = cells trTag r2 from
    fun r2 => cells_skip trTag _ r2 (by decide)]
  rw [show ∀ r2, cells trTag (r.grade_points.data ++ r2) = cells trTag r2 from
    fun r2 => noLt_skip_tr _ f5 r2]
  rw [show ∀ r2, cells trTag (tdCellSep.data ++ r2) = cells trTag r2 from
    fun r2 => cells_skip trTag _ r2 (by decide)]
  rw [show ∀ r2, cells trTag (r.credits.data ++ r2) = cells trTag r2 from
    fun r2 => noLt_skip_tr _ f6 r2]
  rw [show ∀ r2, cells trTag (tdCellSep.data ++ r2) = cells trTag r2 from
    fun r2 => cells_skip trTag _ r2 (by decide)]
  rw [show ∀ r2, cells trTag (r.result.data ++ r2) = cells trTag r2 from
    fun r2 => noLt_skip_tr _ f7 r2]
  rw [show cells trTag (tdRowClose.data ++ rest) = cells trTag rest from
    cells_skip trTag _ rest (by decide)]
  exact ⟨_, rfl⟩

/-- Scanning the loop output for `<td>` yields all rows' cells in row
order. -/
theorem cells_td_frags (rows : List ResultRow) (h : ∀ r ∈ rows, rowClean r = true) :
    ∀ rest, cells tdTag (fragsData rows ++ rest)
      = rows.flatMap rowCells ++ cells tdTag rest := by
  induction rows with
  | nil => intro rest; rfl
  | cons r rs ih =>
    intro rest
    have e : fragsData (r :: rs) = (rowFragment r).data ++ fragsData rs := rfl
    rw [e, List.append_assoc]
    rw [cells_td_fragment r _ (h r (List.mem_cons_self r rs))]
    rw [ih (fun x hx => h x (List.mem_cons_of_mem r hx)) rest]
    rw [show (r :: rs).flatMap rowCells = rowCells r ++ rs.flatMap rowCells from rfl]
    rw [List.append_assoc]

/-- The loop output holds no `<th>`. -/
theorem cells_th_frags (rows : List ResultRow) (h : ∀ r ∈ rows, rowClean r = true) :
    ∀ rest, cells thTag (fragsData rows ++ rest) = cells thTag rest := by
  induction rows with
  | nil => intro rest; rfl
  | cons r rs ih =>
    intro rest
    have e : fragsData (r :: rs) = (rowFragment r).data ++ fragsData rs := rfl
    rw [e, List.append_assoc]
    rw [cells_th_fragment r _ (h r (List.mem_cons_self r rs))]
    exact ih (fun x hx => h x (List.mem_cons_of_mem r hx)) rest

/-- The loop output holds one `<tr>` per row. -/
theorem cells_tr_frags (rows : List ResultRow) (h : ∀ r ∈ rows, rowClean r = true) :
    ∀ rest, (cells trTag (fragsData rows ++ rest)).length
      = rows.length + (cells trTag rest).length := by
  induction rows with
  | nil => intro rest; simp [fragsData]
  | cons r rs ih =>
    intro rest
    have e : fragsData (r :: rs) = (rowFragment r).data ++ fragsData rs := rfl
    obtain ⟨x, hx⟩ := cells_tr_fragment r (fragsData rs ++ rest)
      (h r (List.mem_cons_self r rs))
    rw [e, List.append_assoc, hx, List.length_cons]
    rw [ih (fun y hy => h y (List.mem_cons_of_mem r hy)) rest]
    simp [List.length_cons]
    omega

/-- C7: over any group whose student name and field values are `<`-free,
the rendered HTML decomposes as fixed head, one fragment per row in the
group's order, fixed tail; its `<th>` cells are exactly the seven fixed
header names in column order (so there is exactly one header row); its
`<td>` cells are exactly the rows' field values, seven per row, in row
and column order, inserted as-is; and its `<tr>` count is one header row
plus exactly one table row per ResultRow of the group. -/
theorem rendered_table_structure (student_name : String) (rows : List ResultRow)
    (hn : noLt student_name = true) (hr : ∀ r ∈ rows, rowClean r = true) :
    (htmlContent student_name rows).data =
      htmlStyleBlock.data ++ (student_name.data ++ (htmlAfterName.data ++
        (fragsData rows ++ htmlTail.data))) ∧
    cells thTag (htmlContent student_name rows).data = headerCells ∧
    cells tdTag (htmlContent student_name rows).data = rows.flatMap rowCells ∧
    (cells trTag (htmlContent student_name rows).data).length = 1 + rows.length := by
  have hname : ∀ c ∈ student_name.data, (c != '<') = true := List.all_eq_true.mp hn
  refine ⟨htmlContent_data student_name rows, ?_, ?_, ?_⟩
  · rw [htmlContent_data]
    rw [show ∀ r, cells thTag (htmlStyleBlock.data ++ r) = cells thTag r from
      fun r => cells_skip thTag _ r (by decide)]
    rw [show ∀ r, cells thTag (student_name.data ++ r) = cells thTag r from
      fun r => noLt_skip_th _ hname r]
    rw [cells_th_afterName]
    rw [cells_th_frags rows hr]
    rw [show cells thTag htmlTail.data = [] from by decide]
    simp
  · rw [htmlContent_data]
    rw [show ∀ r, cells tdTag (htmlStyleBlock.data ++ r) = cells tdTag r from
      fun r => cells_skip tdTag _ r (by decide)]
    rw [show ∀ r, cells tdTag (student_name.data ++ r) = cells tdTag r from
      fun r => noLt_skip_td _ hname r]
    rw [show ∀ r, cells tdTag (htmlAfterName.data ++ r) = cells tdTag r from
      fun r => cells_skip tdTag _ r (by decide)]
    rw [cells_td_frags rows hr]
    rw [show cells tdTag htmlTail.data = [] from by decide]
    simp
  · rw [htmlContent_data]
    rw [show ∀ r, cells trTag (htmlStyleBlock.data ++ r) = cells trTag r from
      fun r => cells_skip trTag _ r (by decide)]
    rw [show ∀ r, cells trTag (student_name.data ++ r) = cells trTag r from
      fun r => noLt_skip_tr _ hname r]
    obtain ⟨x, hx⟩ := cells_tr_afterName (fragsData rows ++ htmlTail.data)
    rw [hx, List.length_cons]
    rw [cells_tr_frags rows hr htmlTail.data]
    rw [show cells trTag htmlTail.data = [] from by decide]
    simp
    omega

/-- Witness for `rendered_table_structure` at a concrete one-row group. -/
theorem rendered_table_structure_witness :
    noLt "Alice" = true ∧
    (∀ r ∈ [mkRow "Alice" "a@x.com"], rowClean r = true) ∧
    ((htmlContent "Alice" [mkRow "Alice" "a@x.com"]).data =
      htmlStyleBlock.data ++ (("Alice" : String).data ++ (htmlAfterName.data ++
        (fragsData [mkRow "Alice" "a@x.com"] ++ htmlTail.data))) ∧
    cells thTag (htmlContent "Alice" [mkRow "Alice" "a@x.com"]).data = headerCells ∧
    cells tdTag (htmlContent "Alice" [mkRow "Alice" "a@x.com"]).data =
      [mkRow "Alice" "a@x.com"].flatMap rowCells ∧
    (cells trTag (htmlContent "Alice" [mkRow "Alice" "a@x.com"]).data).length =
      1 + ([mkRow "Alice" "a@x.com"] : List ResultRow).length) :=
  ⟨by decide, by decide,
    rendered_table_structure "Alice" [mkRow "Alice" "a@x.com"] (by decide) (by decide)⟩
